import Mathlib

/-!
Shallow embedding of `src/index.js` of the `cfg` repository: a process-wide
configuration accessor.  JavaScript values are modelled by the mutual
inductive `Value`/`VList`/`JSObj`/`Desc` below; property descriptors carry a
data value with its writable/enumerable flags, or an accessor whose getter is
modelled by the (fixed) value it produces.  External collaborators
(`require`, `fs.readFileSync`, `JSON.parse`, `process.env`, `process.cwd`)
are oracle fields of an `Extern` record; the module-level mutable state
(`config`, `fileCache`) is an explicit `St` record threaded through the
operations, and thrown JavaScript errors become `Except JsErr`.
Simplifications that no settled claim depends on are noted at the definition
they concern (prototype chains, property order of integer-like keys,
`configurable` flags, typed-array index properties, and lodash bracket-path
syntax are not modelled).
-/

namespace Cfg

mutual

inductive Value where
  | vUndefined : Value
  | vNull : Value
  | vBool : Bool → Value
  | vNum : Int → Value
  | vStr : String → Value
  | vBuf : List Nat → Value
  | vArr : VList → Value
  | vObj : JSObj → Value

inductive VList where
  | nil : VList
  | cons : Value → VList → VList

inductive JSObj where
  | nil : JSObj
  | cons : String → Desc → JSObj → JSObj

inductive Desc where
  | dataDesc : Value → Bool → Bool → Desc
  | accessor : Option Value → Bool → Bool → Desc

end

open Value JSObj Desc

/-- Truthiness of a JavaScript value (`!!v`). -/
def truthy : Value → Bool
  | .vUndefined => false
  | .vNull => false
  | .vBool b => b
  | .vNum n => n != 0
  | .vStr s => s != ""
  | .vBuf _ => true
  | .vArr _ => true
  | .vObj _ => true

/-- The source's `isObject`: `Object.prototype.toString.call(obj) === '[object Object]'`,
true exactly for plain objects (not arrays, not null, not buffers, not primitives). -/
def isObject : Value → Bool
  | .vObj _ => true
  | _ => false

/-- The JavaScript `typeof v === 'object'` test used by `cfg.file`'s overwrite
branch: true for plain objects, arrays, buffers, and `null`. -/
def typeofObject : Value → Bool
  | .vObj _ => true
  | .vArr _ => true
  | .vBuf _ => true
  | .vNull => true
  | _ => false

/-- The JavaScript `v instanceof Object` test used by `cfg.set`/`cfg.merge`/`cfg.assign`:
true for objects, arrays, and buffers, false for `null` and primitives. -/
def instanceofObject : Value → Bool
  | .vObj _ => true
  | .vArr _ => true
  | .vBuf _ => true
  | _ => false

/-- Test for `null` or `undefined` (JavaScript loose `v == null`). -/
def isNullish : Value → Bool
  | .vNull => true
  | .vUndefined => true
  | _ => false

/-- Test for `undefined` (JavaScript strict `v === undefined`). -/
def isUndef : Value → Bool
  | .vUndefined => true
  | _ => false

/-- Writable flag of a descriptor (`undefined`, hence false, on accessors). -/
def descWritable : Desc → Bool
  | .dataDesc _ w _ => w
  | .accessor _ _ _ => false

/-- Enumerable flag of a descriptor. -/
def descEnumerable : Desc → Bool
  | .dataDesc _ _ e => e
  | .accessor _ _ e => e

/-- Truthiness of `descriptor.get` (the getter function, `undefined` on data
descriptors and on setter-only accessors). -/
def descHasGetter : Desc → Bool
  | .dataDesc _ _ _ => false
  | .accessor g _ _ => g.isSome

/-- The `value` field of a descriptor (`undefined` on accessors). -/
def descValue : Desc → Value
  | .dataDesc v _ _ => v
  | .accessor _ _ _ => .vUndefined

/-- Reading a property through its descriptor (`obj[key]`): a data value, or
the value produced by the getter (`undefined` for setter-only accessors). -/
def descRead : Desc → Value
  | .dataDesc v _ _ => v
  | .accessor (some g) _ _ => g
  | .accessor none _ _ => .vUndefined

/-- `Object.getOwnPropertyDescriptor` on the ordered own-property list. -/
def objLookup : JSObj → String → Option Desc
  | .nil, _ => none
  | .cons k' d t, k => if k' = k then some d else objLookup t k

/-- `Object.defineProperty`: replace the descriptor of an existing key in
place, or append a new key at the end (JavaScript insertion order). -/
def objDefine : JSObj → String → Desc → JSObj
  | .nil, k, d => .cons k d .nil
  | .cons k' d' t, k, d => if k' = k then .cons k d t else .cons k' d' (objDefine t k d)

/-- Remove a key (the `delete` operator on a top-level key). -/
def objRemove : JSObj → String → JSObj
  | .nil, _ => .nil
  | .cons k' d' t, k => if k' = k then t else .cons k' d' (objRemove t k)

/-- Ordered list of own property keys. -/
def objKeys : JSObj → List String
  | .nil => []
  | .cons k _ t => k :: objKeys t

/-- Parse a string as a JavaScript array index (decimal, no leading zeros). -/
def parseIndex (s : String) : Option Nat :=
  match s.toList with
  | [] => none
  | c :: t =>
    if (c :: t).all Char.isDigit ∧ (c = '0' → t = []) then
      some ((c :: t).foldl (fun a ch => a * 10 + (ch.toNat - 48)) 0)
    else none

/-- Element of a value list at an index. -/
def vlGet : VList → Nat → Option Value
  | .nil, _ => none
  | .cons h _, 0 => some h
  | .cons _ t, n + 1 => vlGet t n

/-- Set an element of a value list at an index, padding holes with
`undefined` as JavaScript arrays do. -/
def vlSet : VList → Nat → Value → VList
  | .nil, 0, v => .cons v .nil
  | .nil, n + 1, v => .cons .vUndefined (vlSet .nil n v)
  | .cons _ t, 0, v => .cons v t
  | .cons h t, n + 1, v => .cons h (vlSet t n v)

/-- Own-property descriptor of a value (`none` off plain objects; index and
`length` descriptors of arrays, strings and buffers are not modelled — the
repository only inspects descriptors of plain objects). -/
def getOwnDescV : Value → String → Option Desc
  | .vObj o, k => objLookup o k
  | _, _ => none

/-- Property read `v[k]`, evaluating getters.  Array and string index reads
are modelled; reads off other primitives yield `undefined`. -/
def jsGet : Value → String → Value
  | .vObj o, k =>
    match objLookup o k with
    | some d => descRead d
    | none => .vUndefined
  | .vArr l, k =>
    match parseIndex k with
    | some i => (vlGet l i).getD .vUndefined
    | none => .vUndefined
  | .vStr s, k =>
    match parseIndex k with
    | some i =>
      match s.toList.get? i with
      | some c => .vStr (String.mk [c])
      | none => .vUndefined
    | none => .vUndefined
  | _, _ => .vUndefined

/-- Property write `v[k] = nv` with JavaScript `[[Set]]` semantics on the
modelled cases: on plain objects an existing data property keeps its flags and
a fresh property is writable and enumerable; on arrays an index write updates
the element.  Writes through setters, writes rejected by non-writable
properties, and string-keyed writes on arrays are not modelled (the value is
left unchanged) — no repository path settled here performs them. -/
def jsSetProp : Value → String → Value → Value
  | .vObj o, k, nv =>
    match objLookup o k with
    | some (.dataDesc _ w e) => .vObj (objDefine o k (.dataDesc nv w e))
    | some (.accessor _ _ _) => .vObj o
    | none => .vObj (objDefine o k (.dataDesc nv true true))
  | .vArr l, k, nv =>
    match parseIndex k with
    | some i => .vArr (vlSet l i nv)
    | none => .vArr l
  | v, _, _ => v

/-- `Object.defineProperty` lifted to values: meaningful on plain objects;
on any other receiver JavaScript would throw a `TypeError`, a case no
repository path reaches (modelled as the unchanged value). -/
def defineProp : Value → String → Desc → Value
  | .vObj o, k, d => .vObj (objDefine o k d)
  | v, _, _ => v

/-- Descriptors of the enumerable index properties of a string source, as
iterated by `Object.keys` on a string: one non-writable enumerable data
property per character (the non-enumerable `length` is skipped).  The source's
`merge` always replaces with these wholesale, since a one-character string is
never a plain object. -/
def strDefine (obj : Value) (i : Nat) (cs : List Char) : Value :=
  match cs with
  | [] => obj
  | c :: t =>
    strDefine (defineProp obj (Nat.repr i) (.dataDesc (.vStr (String.mk [c])) false true)) (i + 1) t

mutual

/-- The source's low-level `merge(obj, src)` (src/index.js lines 23-45),
functionally: the returned value is the mutated destination.  `if (!src)
return obj` is the truthiness guard; `Object.keys(src)` iterates the
enumerable own keys of an object, array, or string source (numbers and
booleans have none; typed-array sources do not occur in the repository and
are treated as keyless). -/
def mergeV (obj : Value) (src : Value) : Value :=
  if truthy src = false then obj
  else
    match src with
    | .vObj s => mergeProps obj s
    | .vArr l => mergeArr obj 0 l
    | .vStr s => strDefine obj 0 s.toList
    | _ => obj
termination_by structural src

/-- The `Object.keys(src).forEach` loop of `merge`, iterating the ordered
enumerable own properties of a plain-object source. -/
def mergeProps (obj : Value) (s : JSObj) : Value :=
  match s with
  | .nil => obj
  | .cons k d t =>
    if descEnumerable d then mergeProps (mergeKey obj k d) t
    else mergeProps obj t
termination_by structural s

/-- One iteration of the `merge` loop at key `k` with source descriptor `sd`:
recurse when the destination has the key, neither descriptor has a getter,
and both descriptor values are plain objects (`isObject`); otherwise
`Object.defineProperty(obj, key, srcVal)` replaces the descriptor wholesale.
Getter-bearing and absent destination descriptors fall to the replace branch,
as does any accessor source descriptor (its `value` field is `undefined`). -/
def mergeKey (obj : Value) (k : String) (sd : Desc) : Value :=
  match sd with
  | .dataDesc sv sw se =>
    match getOwnDescV obj k with
    | some (.dataDesc ov ow oe) =>
      if isObject sv && isObject ov then
        defineProp obj k (.dataDesc (mergeV ov sv) ow oe)
      else defineProp obj k (.dataDesc sv sw se)
    | _ => defineProp obj k (.dataDesc sv sw se)
  | .accessor g st e => defineProp obj k (.accessor g st e)
termination_by structural sd

/-- The `merge` loop over an array source: `Object.keys` yields the index
keys in order, each with a writable enumerable data descriptor holding the
element. -/
def mergeArr (obj : Value) (i : Nat) (l : VList) : Value :=
  match l with
  | .nil => obj
  | .cons hd t =>
    let k := Nat.repr i
    let obj1 :=
      match getOwnDescV obj k with
      | some (.dataDesc ov ow oe) =>
        if isObject hd && isObject ov then
          defineProp obj k (.dataDesc (mergeV ov hd) ow oe)
        else defineProp obj k (.dataDesc hd true true)
      | _ => defineProp obj k (.dataDesc hd true true)
    mergeArr obj1 (i + 1) t
termination_by structural l

end

/-- The `Object.assign` loop over a plain-object source: each enumerable own
property is read through `[[Get]]` (`descRead`, which evaluates getters) and
written onto the target with `[[Set]]` (`jsSetProp`). -/
def assignProps (t : Value) (s : JSObj) : Value :=
  match s with
  | .nil => t
  | .cons k d r =>
    if descEnumerable d then assignProps (jsSetProp t k (descRead d)) r
    else assignProps t r

/-- The `Object.assign` loop over an array source: index keys in order. -/
def assignArr (t : Value) (i : Nat) (l : VList) : Value :=
  match l with
  | .nil => t
  | .cons hd r => assignArr (jsSetProp t (Nat.repr i) hd) (i + 1) r

/-- The `Object.assign` loop over a string source: index keys in order. -/
def assignStr (t : Value) (i : Nat) (cs : List Char) : Value :=
  match cs with
  | [] => t
  | c :: r => assignStr (jsSetProp t (Nat.repr i) (.vStr (String.mk [c]))) (i + 1) r

/-- `Object.assign(t, src)`: copies the enumerable own properties of the
source, evaluating getters; `null`, `undefined`, numbers and booleans
contribute nothing (typed-array sources do not occur in the repository and
are treated as keyless). -/
def objAssign (t : Value) (src : Value) : Value :=
  match src with
  | .vObj s => assignProps t s
  | .vArr l => assignArr t 0 l
  | .vStr s => assignStr t 0 s.toList
  | _ => t

/-- Split a character list at a separator character (JavaScript
`String.prototype.split` with a one-character separator; never empty). -/
def splitCh (sep : Char) : List Char → List (List Char)
  | [] => [[]]
  | c :: t =>
    if c = sep then [] :: splitCh sep t
    else
      match splitCh sep t with
      | [] => [[c]]
      | h :: r => (c :: h) :: r

/-- JavaScript `key.split('.')`, the path parsing lodash applies to the
dotted keys this repository uses (lodash bracket syntax is not modelled). -/
def splitDots (s : String) : List String :=
  (splitCh '.' s.toList).map fun l => String.mk l

/-- JavaScript `s.split('__')` on character lists: the two-underscore
separator is consumed greedily from the left. -/
def splitUU : List Char → List (List Char)
  | [] => [[]]
  | '_' :: '_' :: t => [] :: splitUU t
  | c :: t =>
    match splitUU t with
    | [] => [[c]]
    | h :: r => (c :: h) :: r

/-- Alphanumeric test for the simplified word splitter below. -/
def isAlphaNum (c : Char) : Bool := c.isAlpha || c.isDigit

/-- Maximal alphanumeric words of a character list (accumulator-passing). -/
def camelWordsGo : List Char → List Char → List (List Char)
  | [], acc => if acc = [] then [] else [acc.reverse]
  | c :: t, acc =>
    if isAlphaNum c then camelWordsGo t (c :: acc)
    else if acc = [] then camelWordsGo t []
    else acc.reverse :: camelWordsGo t []

/-- Words of a string: maximal alphanumeric runs. -/
def camelWords (s : String) : List (List Char) := camelWordsGo s.toList []

/-- Lowercase a word. -/
def lowerWord (w : List Char) : List Char := w.map Char.toLower

/-- Lowercase a word and capitalize its first character. -/
def capWord (w : List Char) : List Char :=
  match lowerWord w with
  | [] => []
  | c :: t => c.toUpper :: t

/-- The lodash `_.camelCase` used on each env-var path segment, modelled for
words separated by non-alphanumeric characters (intra-word case-transition
splitting and unicode folding of full lodash are not exercised by the
repository's uppercase-with-underscores variable names). -/
def camelCase (s : String) : String :=
  match camelWords s with
  | [] => ""
  | w :: ws => String.mk (lowerWord w ++ (ws.map capWord).flatten)

/-- Lodash object test (`typeof v` is `'object'` or `'function'`, non-null),
used by `_.set` to decide whether to descend into an existing intermediate. -/
def lodashIsObject : Value → Bool
  | .vObj _ => true
  | .vArr _ => true
  | .vBuf _ => true
  | _ => false

/-- Lodash `_.get` along a parsed path (`baseGet`): walks `obj = obj[key]`,
stopping with `undefined` when the current value is nullish before the path
is exhausted.  No default handling here; `cfg` applies the default to an
`undefined` result. -/
def lodashGet (v : Value) (p : List String) : Value :=
  match p with
  | [] => v
  | k :: t => if isNullish v then .vUndefined else lodashGet (jsGet v k) t

/-- Lodash `_.set` along a parsed path (`baseSet`): descends into existing
object-like intermediates, otherwise creates a fresh array (when the next
segment is an array index) or a fresh plain object, and performs the final
write by assignment. -/
def lodashSet (v : Value) (p : List String) (nv : Value) : Value :=
  match p with
  | [] => v
  | [k] => jsSetProp v k nv
  | k :: k2 :: t =>
    let child := jsGet v k
    let child1 :=
      if lodashIsObject child then child
      else if (parseIndex k2).isSome then .vArr .nil else .vObj .nil
    jsSetProp v k (lodashSet child1 (k2 :: t) nv)

/-- Result of `require(file)`: a loaded value, a `MODULE_NOT_FOUND` error, or
any other load error. -/
inductive RequireRes where
  | ok : Value → RequireRes
  | notFound : RequireRes
  | loadErr : RequireRes

/-- The external world as seen by one call into the module: `NODE_ENV`, the
`CI` variable, the remaining environment entries in `Object.keys` order,
`process.cwd()`, and oracles for `require`, `fs.readFileSync` (`none` models
a thrown read error) and `JSON.parse` (`none` models a thrown parse error). -/
structure Extern where
  nodeEnv : Option String
  ciVar : Option String
  envPairs : List (String × String)
  cwd : String
  requireF : String → RequireRes
  readFileF : String → Option (List Nat)
  jsonParse : String → Option Value

/-- The source's `env()`: `process.env.NODE_ENV || 'development'`. -/
def envString (e : Extern) : String :=
  match e.nodeEnv with
  | some s => if s = "" then "development" else s
  | none => "development"

/-- The source's `cfg.isCI()`: `!!process.env.CI`. -/
def isCIExt (e : Extern) : Bool :=
  match e.ciVar with
  | some s => s != ""
  | none => false

/-- Module-level mutable state: the `config` tree (`undefined` before lazy
initialization — the source tests its truthiness) and the `fileCache`
object as an association list (an entry may hold `undefined`, which the
`key in fileCache` test still sees). -/
structure St where
  config : Value
  fileCache : List (String × Value)

/-- Thrown JavaScript errors of the modelled paths.  A throw unwinds to the
caller; partial mutations JavaScript would retain up to the throw are
discarded by the `Except` model, which no settled claim observes. -/
inductive JsErr where
  | invalidArgument : JsErr
  | moduleNotFound : String → JsErr
  | loadError : String → JsErr
  | typeErr : JsErr

/-- First-match lookup in the `fileCache` association list (`key in
fileCache` together with `fileCache[key]`). -/
def cacheLookup : List (String × Value) → String → Option Value
  | [], _ => none
  | (k', v) :: t, k => if k' = k then some v else cacheLookup t k

/-- POSIX `path.isAbsolute`. -/
def isAbsolute (s : String) : Bool :=
  match s.toList with
  | '/' :: _ => true
  | _ => false

/-- POSIX `path.join` of a directory and a relative name, as used by
`readDefaultConfigFiles`. -/
def joinPath (a b : String) : String := a ++ "/" ++ b

/-- The `$env_` override key for the active environment. -/
def envOverrideKey (e : Extern) : String := "$env_" ++ envString e

/-- Body of `cfg.merge` after lazy initialization (src/index.js lines
154-158): deep-merge the object, then its environment override, then — only
under CI — its CI override, in that order. -/
def mergeSteps (e : Extern) (obj : Value) (c : Value) : Value :=
  let c1 := mergeV c obj
  let c2 := mergeV c1 (jsGet obj (envOverrideKey e))
  if isCIExt e then mergeV c2 (jsGet obj "$env_CI") else c2

/-- The guarded body of `cfg.merge`: a no-op unless `obj instanceof Object`. -/
def cfgMergePrim (e : Extern) (obj : Value) (st : St) : St :=
  if instanceofObject obj then ⟨mergeSteps e obj st.config, st.fileCache⟩ else st

/-- Body of `cfg.assign` (and of the single-object form of `cfg.set`) after
lazy initialization: the same three-step sequence with `Object.assign`. -/
def assignSteps (e : Extern) (obj : Value) (c : Value) : Value :=
  let c1 := objAssign c obj
  let c2 := objAssign c1 (jsGet obj (envOverrideKey e))
  if isCIExt e then objAssign c2 (jsGet obj "$env_CI") else c2

/-- The guarded body of `cfg.assign`. -/
def cfgAssignPrim (e : Extern) (obj : Value) (st : St) : St :=
  if instanceofObject obj then ⟨assignSteps e obj st.config, st.fileCache⟩ else st

/-- The key/value branch of `cfg.set` (no initialization): remembers
`_.get(config, key)`, performs `_.set(config, key, value)`, returns the
previous value. -/
def cfgSetPathPrim (key : String) (v : Value) (st : St) : Value × St :=
  let p := splitDots key
  (lodashGet st.config p, ⟨lodashSet st.config p v, st.fileCache⟩)

/-- Tag test `envVal.startsWith('@JSON:')`. -/
def jsonTagged (raw : String) : Bool :=
  List.isPrefixOf "@JSON:".toList raw.toList

/-- The remainder `envVal.substring(6)` after the `@JSON:` tag. -/
def jsonRemainder (raw : String) : String := String.mk (raw.toList.drop 6)

/-- Value transformation of `readEnvVariables` for one variable: a truthy
value carrying the `@JSON:` tag is parsed, and on a parse failure the
exception is caught, an error is logged, and `envVal` is left as it was —
the full tagged string, tag included; everything else stays a raw string. -/
def envValTransform (e : Extern) (raw : String) : Value :=
  if raw != "" && jsonTagged raw then
    match e.jsonParse (jsonRemainder raw) with
    | some j => j
    | none => .vStr raw
  else .vStr raw

/-- The derived dotted key of a `CFG__`-prefixed variable name: strip the
five-character prefix, split on `__`, camel-case each segment, join with
dots. -/
def envDerivedKey (name : String) : String :=
  String.intercalate "." ((splitUU (name.toList.drop 5)).map fun w => camelCase (String.mk w))

/-- The source's `readEnvVariables` (src/index.js lines 66-81), as invoked
with a truthy `config` during initialization, where the `cfg.set` calls it
makes skip re-initialization and always take the key/value branch (the value
is a string or a parsed JSON value, and the key is a string). -/
def readEnvVariablesPrim (e : Extern) (st : St) : St :=
  let vals := e.envPairs.filter fun pr => List.isPrefixOf "CFG__".toList pr.1.toList
  vals.foldl (fun s pr => (cfgSetPathPrim (envDerivedKey pr.1) (envValTransform e pr.2) s).2) st

/-- Except-sequencing of state transformers, written out so proofs can case
on each step. -/
def exBind (x : Except JsErr St) (f : St → Except JsErr St) : Except JsErr St :=
  match x with
  | .ok s => f s
  | .error er => .error er

/-- The source's `cfg.file` as called during `readDefaultConfigFiles`, where
`config` is already truthy so the `cfg.merge` inside the `try` block skips
re-initialization.  The path check, the overwrite test `options.overwrite
=== true && typeof data === 'object'`, and the catch clauses (swallow
`MODULE_NOT_FOUND` under `ignoreNotFound`, swallow anything under
`ignoreErrors`) follow src/index.js lines 198-225. -/
def filePrim (e : Extern) (f : String) (ignNF ignErr ovw : Bool) (st : St) : Except JsErr St :=
  if isAbsolute f = false then .error .invalidArgument
  else
    match e.requireF f with
    | .ok data =>
      if ovw && typeofObject data then .ok ⟨data, st.fileCache⟩
      else .ok (cfgMergePrim e data st)
    | .notFound =>
      if ignNF then .ok st
      else if ignErr then .ok st
      else .error (.moduleNotFound f)
    | .loadErr => if ignErr then .ok st else .error (.loadError f)

/-- The `$privateConfigFile` step of `readDefaultConfigFiles`: when the tree
holds a truthy value under that key (read through any getter), a string is
loaded as one more `{ignoreNotFound: true}` file; a truthy non-string would
make `path.isAbsolute` throw a `TypeError`; a falsy value skips the step. -/
def privateConfigStep (e : Extern) (st : St) : Except JsErr St :=
  match jsGet st.config "$privateConfigFile" with
  | .vStr p => if p = "" then .ok st else filePrim e p true false false st
  | pf => if truthy pf then .error .typeErr else .ok st

/-- The default load sequence of `readDefaultConfigFiles` (src/index.js
lines 87-100), run on a state whose `config` has just been set to `{}`:
base file, environment file, CI file under CI, the three private
counterparts, the optional `$privateConfigFile` extra file, then the
environment variables.  All file steps pass `{ignoreNotFound: true}`. -/
def defaultSequence (e : Extern) (st : St) : Except JsErr St :=
  exBind (filePrim e (joinPath e.cwd "config.js") true false false st) fun st =>
  exBind (filePrim e (joinPath e.cwd ("config." ++ envString e ++ ".js")) true false false st) fun st =>
  exBind (if isCIExt e then filePrim e (joinPath e.cwd "config.CI.js") true false false st else .ok st) fun st =>
  exBind (filePrim e (joinPath (joinPath e.cwd "private") "config.js") true false false st) fun st =>
  exBind (filePrim e (joinPath (joinPath e.cwd "private") ("config." ++ envString e ++ ".js")) true false false st) fun st =>
  exBind (if isCIExt e then filePrim e (joinPath (joinPath e.cwd "private") "config.CI.js") true false false st else .ok st) fun st =>
  exBind (privateConfigStep e st) fun st =>
  .ok (readEnvVariablesPrim e st)

/-- The source's `readDefaultConfigFiles` (src/index.js lines 83-101): a
no-op when `config` is truthy; otherwise `config = {}` and the default
sequence runs. -/
def readDefaultConfigFiles (e : Extern) (st : St) : Except JsErr St :=
  if truthy st.config then .ok st
  else defaultSequence e ⟨.vObj .nil, st.fileCache⟩

/-- The public `cfg(key, defaultValue)` / `cfg.get`: lazy initialization,
then `_.get(config, key, defaultValue)` (the default replaces a strictly
`undefined` result). -/
def cfg_get (e : Extern) (key : String) (dflt : Value) (st : St) : Except JsErr (Value × St) :=
  match readDefaultConfigFiles e st with
  | .error er => .error er
  | .ok st' =>
    let r := lodashGet st'.config (splitDots key)
    .ok (if isUndef r then dflt else r, st')

/-- The public `cfg.set(key, value)` (src/index.js lines 127-141): lazy
initialization, then either the three `Object.assign` steps (when `value` is
`undefined` and `key instanceof Object`, returning `null`) or the key/value
branch (non-string keys of the key/value branch, which lodash would coerce
to property names, are not modelled — the repository's callers pass
strings). -/
def cfg_set (e : Extern) (key value : Value) (st : St) : Except JsErr (Value × St) :=
  match readDefaultConfigFiles e st with
  | .error er => .error er
  | .ok st' =>
    if isUndef value && instanceofObject key then
      .ok (.vNull, cfgAssignPrim e key st')
    else
      match key with
      | .vStr k => .ok (cfgSetPathPrim k value st')
      | _ => .ok (.vUndefined, st')

/-- The public `cfg.merge(obj)` (src/index.js lines 151-159). -/
def cfg_merge (e : Extern) (obj : Value) (st : St) : Except JsErr St :=
  exBind (readDefaultConfigFiles e st) fun st' => .ok (cfgMergePrim e obj st')

/-- The public `cfg.assign(obj)` (src/index.js lines 169-177). -/
def cfg_assign (e : Extern) (obj : Value) (st : St) : Except JsErr St :=
  exBind (readDefaultConfigFiles e st) fun st' => .ok (cfgAssignPrim e obj st')

/-- The public `cfg.delete(key)`: lazy initialization, then `delete
config[key]` on the top level only. -/
def cfg_delete (e : Extern) (key : String) (st : St) : Except JsErr St :=
  exBind (readDefaultConfigFiles e st) fun st' =>
    .ok ⟨(match st'.config with
          | .vObj o => .vObj (objRemove o key)
          | c => c), st'.fileCache⟩

/-- The public `cfg.file(file, options)` (src/index.js lines 198-225).  The
absolute-path check throws before anything is loaded.  On a successful
`require`, the overwrite branch replaces `config` outright (without lazy
initialization); otherwise `cfg.merge(data)` runs — still inside the `try`,
so an error it raises is subject to the same catch clauses. -/
def cfg_file (e : Extern) (f : String) (ignNF ignErr ovw : Bool) (st : St) : Except JsErr St :=
  if isAbsolute f = false then .error .invalidArgument
  else
    match e.requireF f with
    | .ok data =>
      if ovw && typeofObject data then .ok ⟨data, st.fileCache⟩
      else
        match cfg_merge e data st with
        | .ok st1 => .ok st1
        | .error (.moduleNotFound p) =>
          if ignNF then .ok st
          else if ignErr then .ok st
          else .error (.moduleNotFound p)
        | .error er => if ignErr then .ok st else .error er
    | .notFound =>
      if ignNF then .ok st
      else if ignErr then .ok st
      else .error (.moduleNotFound f)
    | .loadErr => if ignErr then .ok st else .error (.loadError f)

/-- The public `cfg.read(key)` (src/index.js lines 233-252): a cached entry
(even an `undefined` marker) is returned at once; otherwise `cfg(key)` (with
its lazy initialization) yields the path.  A falsy path caches the
`undefined` marker.  A successful `fs.readFileSync` caches the bytes.  A
failed read — including a non-string truthy path, on which `readFileSync`
throws — only logs: the assignment never runs, nothing is cached, and the
returned `fileCache[key]` is `undefined`. -/
def cfg_read (e : Extern) (key : String) (st : St) : Except JsErr (Value × St) :=
  match cacheLookup st.fileCache key with
  | some v => .ok (v, st)
  | none =>
    match cfg_get e key .vUndefined st with
    | .error er => .error er
    | .ok (filePath, st1) =>
      if truthy filePath = false then
        .ok (.vUndefined, ⟨st1.config, (key, .vUndefined) :: st1.fileCache⟩)
      else
        match filePath with
        | .vStr p =>
          match e.readFileF p with
          | some bs => .ok (.vBuf bs, ⟨st1.config, (key, .vBuf bs) :: st1.fileCache⟩)
          | none => .ok (.vUndefined, st1)
        | _ => .ok (.vUndefined, st1)

/-! ### Basic lemmas about the own-property list -/

theorem objLookup_define_self (o : JSObj) (k : String) (d : Desc) :
    objLookup (objDefine o k d) k = some d := by
  cases o with
  | nil => simp [objDefine, objLookup]
  | cons k' d' t =>
    by_cases h : k' = k
    · simp [objDefine, h, objLookup]
    · simp [objDefine, h, objLookup, objLookup_define_self t k d]
termination_by structural o

theorem objLookup_define_ne (o : JSObj) (k k2 : String) (d : Desc) (h : k2 ≠ k) :
    objLookup (objDefine o k d) k2 = objLookup o k2 := by
  have h2 : ¬ k = k2 := fun hh => h hh.symm
  cases o with
  | nil => simp [objDefine, objLookup, h2]
  | cons k' d' t =>
    by_cases hk : k' = k
    · subst hk
      simp [objDefine, objLookup, h2]
    · simp [objDefine, hk, objLookup, objLookup_define_ne t k k2 d h]
termination_by structural o

/-! ### Shape lemmas for the merge loop -/

theorem mergeKey_shape (o : JSObj) (k : String) (sd : Desc) :
    ∃ d2, mergeKey (.vObj o) k sd = .vObj (objDefine o k d2) := by
  cases sd with
  | accessor g s e => exact ⟨.accessor g s e, rfl⟩
  | dataDesc sv sw se =>
    show ∃ d2,
        (match getOwnDescV (.vObj o) k with
          | some (.dataDesc ov ow oe) =>
            if isObject sv && isObject ov then
              defineProp (.vObj o) k (.dataDesc (mergeV ov sv) ow oe)
            else defineProp (.vObj o) k (.dataDesc sv sw se)
          | _ => defineProp (.vObj o) k (.dataDesc sv sw se)) = .vObj (objDefine o k d2)
    cases hl : getOwnDescV (.vObj o) k with
    | none => exact ⟨.dataDesc sv sw se, by simp [hl, defineProp]⟩
    | some d0 =>
      cases d0 with
      | dataDesc ov ow oe =>
        by_cases hc : (isObject sv && isObject ov) = true
        · exact ⟨.dataDesc (mergeV ov sv) ow oe, by simp [hl, hc, defineProp]⟩
        · exact ⟨.dataDesc sv sw se, by simp [hl, Bool.not_eq_true _ ▸ hc, defineProp]⟩
      | accessor g s e => exact ⟨.dataDesc sv sw se, by simp [hl, defineProp]⟩

theorem mergeProps_shape (s : JSObj) (o : JSObj) :
    ∃ o2, mergeProps (.vObj o) s = .vObj o2 := by
  cases s with
  | nil => exact ⟨o, rfl⟩
  | cons k d t =>
    by_cases he : descEnumerable d = true
    · obtain ⟨d2, hd2⟩ := mergeKey_shape o k d
      obtain ⟨o2, ho2⟩ := mergeProps_shape t (objDefine o k d2)
      exact ⟨o2, by simp [mergeProps, he, hd2, ho2]⟩
    · obtain ⟨o2, ho2⟩ := mergeProps_shape t o
      exact ⟨o2, by simp [mergeProps, he, ho2]⟩
termination_by structural s

theorem mergeProps_lookup_notin (s : JSObj) (k : String) (o : JSObj) (hk : k ∉ objKeys s) :
    getOwnDescV (mergeProps (.vObj o) s) k = objLookup o k := by
  cases s with
  | nil => rfl
  | cons k' d t =>
    have hne : k ≠ k' := by
      intro h; exact hk (by simp [objKeys, h])
    have hkt : k ∉ objKeys t := fun h => hk (by simp [objKeys, h])
    by_cases he : descEnumerable d = true
    · obtain ⟨d2, hd2⟩ := mergeKey_shape o k' d
      rw [show mergeProps (.vObj o) (.cons k' d t) = mergeProps (mergeKey (.vObj o) k' d) t by
            simp [mergeProps, he]]
      rw [hd2, mergeProps_lookup_notin t k _ hkt, objLookup_define_ne _ _ _ _ hne]
    · rw [show mergeProps (.vObj o) (.cons k' d t) = mergeProps (.vObj o) t by
            simp [mergeProps, he]]
      exact mergeProps_lookup_notin t k o hkt
termination_by structural s

/-- The per-key case split of the claim: recurse exactly when the destination
already has the key, neither descriptor has a getter, and both descriptor
values are plain objects; otherwise the source descriptor replaces the
destination's wholesale. -/
def mergedDescAt (od : Option Desc) (sd : Desc) : Option Desc :=
  match od with
  | some d0 =>
    if descHasGetter d0 = false ∧ descHasGetter sd = false
        ∧ isObject (descValue sd) = true ∧ isObject (descValue d0) = true then
      some (.dataDesc (mergeV (descValue d0) (descValue sd)) (descWritable d0) (descEnumerable d0))
    else some sd
  | none => some sd

theorem mergeKey_at_self (o : JSObj) (k : String) (sd : Desc) :
    getOwnDescV (mergeKey (.vObj o) k sd) k = mergedDescAt (objLookup o k) sd := by
  cases hl : objLookup o k with
  | none =>
    cases sd with
    | accessor g s e =>
      simp [mergeKey, defineProp, getOwnDescV, objLookup_define_self, mergedDescAt]
    | dataDesc sv sw se =>
      simp [mergeKey, getOwnDescV, hl, defineProp, objLookup_define_self, mergedDescAt]
  | some d0 =>
    cases sd with
    | accessor g s e =>
      cases d0 with
      | dataDesc ov ow oe =>
        simp [mergeKey, defineProp, getOwnDescV, objLookup_define_self, mergedDescAt,
          descValue, isObject]
      | accessor g0 s0 e0 =>
        simp [mergeKey, defineProp, getOwnDescV, objLookup_define_self, mergedDescAt,
          descValue, isObject]
    | dataDesc sv sw se =>
      cases d0 with
      | accessor g0 s0 e0 =>
        cases g0 with
        | some gv =>
          simp [mergeKey, getOwnDescV, hl, defineProp, objLookup_define_self, mergedDescAt,
            descHasGetter]
        | none =>
          simp [mergeKey, getOwnDescV, hl, defineProp, objLookup_define_self, mergedDescAt,
            descHasGetter, descValue, isObject]
      | dataDesc ov ow oe =>
        by_cases hc : (isObject sv && isObject ov) = true
        · have h1 : isObject sv = true := ((Bool.and_eq_true _ _).mp hc).1
          have h2 : isObject ov = true := ((Bool.and_eq_true _ _).mp hc).2
          simp [mergeKey, getOwnDescV, hl, hc, defineProp, objLookup_define_self, mergedDescAt,
            descHasGetter, descValue, descWritable, descEnumerable, h1, h2]
        · have hno : ¬(isObject (descValue (Desc.dataDesc sv sw se)) = true
              ∧ isObject (descValue (Desc.dataDesc ov ow oe)) = true) := by
            intro hpair
            exact hc (by simp [descValue] at hpair; simp [hpair.1, hpair.2])
          simp only [mergeKey, getOwnDescV, hl, if_neg hc]
          simp [defineProp, getOwnDescV, objLookup_define_self, mergedDescAt, descHasGetter, hno]

theorem mergeProps_at_key (s : JSObj) (k : String) (d : Desc) (dst : JSObj)
    (hnd : (objKeys s).Nodup) (hl : objLookup s k = some d) (he : descEnumerable d = true) :
    getOwnDescV (mergeProps (.vObj dst) s) k = mergedDescAt (objLookup dst k) d := by
  cases s with
  | nil => simp [objLookup] at hl
  | cons k' d' t =>
    have hnd' : k' ∉ objKeys t ∧ (objKeys t).Nodup := by
      have := List.nodup_cons.mp (show (k' :: objKeys t).Nodup from hnd)
      exact ⟨this.1, this.2⟩
    by_cases hk : k' = k
    · subst hk
      have hd : d' = d := by simpa [objLookup] using hl
      subst hd
      obtain ⟨d2, hd2⟩ := mergeKey_shape dst k' d'
      calc getOwnDescV (mergeProps (.vObj dst) (.cons k' d' t)) k'
          = getOwnDescV (mergeProps (mergeKey (.vObj dst) k' d') t) k' := by
            simp [mergeProps, he]
        _ = getOwnDescV (mergeProps (.vObj (objDefine dst k' d2)) t) k' := by rw [hd2]
        _ = objLookup (objDefine dst k' d2) k' := mergeProps_lookup_notin t k' _ hnd'.1
        _ = getOwnDescV (mergeKey (.vObj dst) k' d') k' := by rw [hd2]; rfl
        _ = mergedDescAt (objLookup dst k') d' := mergeKey_at_self dst k' d'
    · have hlt : objLookup t k = some d := by simpa [objLookup, hk] using hl
      by_cases he' : descEnumerable d' = true
      · obtain ⟨d2, hd2⟩ := mergeKey_shape dst k' d'
        calc getOwnDescV (mergeProps (.vObj dst) (.cons k' d' t)) k
            = getOwnDescV (mergeProps (mergeKey (.vObj dst) k' d') t) k := by
              simp [mergeProps, he']
          _ = getOwnDescV (mergeProps (.vObj (objDefine dst k' d2)) t) k := by rw [hd2]
          _ = mergedDescAt (objLookup (objDefine dst k' d2) k) d :=
              mergeProps_at_key t k d _ hnd'.2 hlt he
          _ = mergedDescAt (objLookup dst k) d := by
              rw [objLookup_define_ne dst k' k d2 (fun hh => hk hh.symm)]
      · calc getOwnDescV (mergeProps (.vObj dst) (.cons k' d' t)) k
            = getOwnDescV (mergeProps (.vObj dst) t) k := by simp [mergeProps, he']
          _ = mergedDescAt (objLookup dst k) d := mergeProps_at_key t k d _ hnd'.2 hlt he
termination_by structural s

/-- C1: for every destination object and source object, the low-level `merge`
processes each (enumerable own) key of the source by recursively merging at
that key exactly when the destination already has the key, neither side's
descriptor for it has a getter, and both descriptor values are plain
mappings; in every other case the source's full descriptor replaces the
destination's for that key wholesale (`mergedDescAt` transcribes this case
split, keeping the destination's flags and merging the two values in the
recursive case).  The returned value is the mutated destination itself. -/
theorem merge_processes_each_source_key (dst s : JSObj) (k : String) (d : Desc)
    (hnd : (objKeys s).Nodup) (hl : objLookup s k = some d) (he : descEnumerable d = true) :
    getOwnDescV (mergeV (.vObj dst) (.vObj s)) k = mergedDescAt (objLookup dst k) d := by
  rw [show mergeV (.vObj dst) (.vObj s) = mergeProps (.vObj dst) s by simp [mergeV, truthy]]
  exact mergeProps_at_key s k d dst hnd hl he

/-- Witness for C1 at `dst = {a: {x: 1}}`, `src = {a: {y: 2}}`: the merge
recurses at `a` and yields `{a: {x: 1, y: 2}}`. -/
theorem merge_processes_each_source_key_witness :
    getOwnDescV
        (mergeV
          (.vObj (.cons "a" (.dataDesc (.vObj (.cons "x" (.dataDesc (.vNum 1) true true) .nil)) true true) .nil))
          (.vObj (.cons "a" (.dataDesc (.vObj (.cons "y" (.dataDesc (.vNum 2) true true) .nil)) true true) .nil)))
        "a"
      = mergedDescAt
          (objLookup (.cons "a" (.dataDesc (.vObj (.cons "x" (.dataDesc (.vNum 1) true true) .nil)) true true) .nil) "a")
          (.dataDesc (.vObj (.cons "y" (.dataDesc (.vNum 2) true true) .nil)) true true) :=
  merge_processes_each_source_key
    (.cons "a" (.dataDesc (.vObj (.cons "x" (.dataDesc (.vNum 1) true true) .nil)) true true) .nil)
    (.cons "a" (.dataDesc (.vObj (.cons "y" (.dataDesc (.vNum 2) true true) .nil)) true true) .nil)
    "a" (.dataDesc (.vObj (.cons "y" (.dataDesc (.vNum 2) true true) .nil)) true true)
    (by simp [objKeys]) rfl rfl

/-- C8: for every non-absolute path argument, and regardless of the options,
the public `cfg.file` fails with the invalid-argument error before consulting
the loader; no state is produced, so the configuration tree is unchanged. -/
theorem file_relative_path_invalid_argument (e : Extern) (f : String)
    (ignNF ignErr ovw : Bool) (st : St) (h : isAbsolute f = false) :
    cfg_file e f ignNF ignErr ovw st = .error .invalidArgument := by
  simp [cfg_file, h]

/-- Witness for C8 at the spec's example `file("relative/path.js", {})`. -/
theorem file_relative_path_invalid_argument_witness :
    cfg_file ⟨none, none, [], "/q", fun _ => .notFound, fun _ => none, fun _ => none⟩
      "relative/path.js" false false false ⟨.vObj .nil, []⟩ = .error .invalidArgument :=
  file_relative_path_invalid_argument _ _ _ _ _ _ rfl

/-! ### Preservation of plain-object shape by the merge loops -/

theorem mergeArr_shape (l : VList) (i : Nat) (o : JSObj) :
    ∃ o2, mergeArr (.vObj o) i l = .vObj o2 := by
  cases l with
  | nil => exact ⟨o, rfl⟩
  | cons hd t =>
    cases hl : getOwnDescV (.vObj o) (Nat.repr i) with
    | none =>
      obtain ⟨o2, ho2⟩ := mergeArr_shape t (i + 1) (objDefine o (Nat.repr i) (.dataDesc hd true true))
      exact ⟨o2, by simp [mergeArr, hl, defineProp, ho2]⟩
    | some d0 =>
      cases d0 with
      | dataDesc ov ow oe =>
        by_cases hc : (isObject hd && isObject ov) = true
        · obtain ⟨o2, ho2⟩ :=
            mergeArr_shape t (i + 1) (objDefine o (Nat.repr i) (.dataDesc (mergeV ov hd) ow oe))
          exact ⟨o2, by simp [mergeArr, hl, hc, defineProp, ho2]⟩
        · obtain ⟨o2, ho2⟩ :=
            mergeArr_shape t (i + 1) (objDefine o (Nat.repr i) (.dataDesc hd true true))
          exact ⟨o2, by simp [mergeArr, hl, hc, defineProp, ho2]⟩
      | accessor g s e =>
        obtain ⟨o2, ho2⟩ := mergeArr_shape t (i + 1) (objDefine o (Nat.repr i) (.dataDesc hd true true))
        exact ⟨o2, by simp [mergeArr, hl, defineProp, ho2]⟩
termination_by structural l

theorem strDefine_shape (cs : List Char) (i : Nat) (o : JSObj) :
    ∃ o2, strDefine (.vObj o) i cs = .vObj o2 := by
  cases cs with
  | nil => exact ⟨o, rfl⟩
  | cons c t =>
    obtain ⟨o2, ho2⟩ :=
      strDefine_shape t (i + 1) (objDefine o (Nat.repr i) (.dataDesc (.vStr (String.mk [c])) false true))
    exact ⟨o2, by simp [strDefine, defineProp, ho2]⟩
termination_by structural cs

/-- A merge into a plain object yields a plain object, whatever the source. -/
theorem mergeV_shape (src : Value) (o : JSObj) : ∃ o2, mergeV (.vObj o) src = .vObj o2 := by
  cases src with
  | vUndefined => exact ⟨o, by simp [mergeV, truthy]⟩
  | vNull => exact ⟨o, by simp [mergeV, truthy]⟩
  | vBool b => exact ⟨o, by simp [mergeV]⟩
  | vNum n => exact ⟨o, by simp [mergeV]⟩
  | vBuf bs => exact ⟨o, by simp [mergeV, truthy]⟩
  | vArr l =>
    obtain ⟨o2, ho2⟩ := mergeArr_shape l 0 o
    exact ⟨o2, by simp [mergeV, truthy, ho2]⟩
  | vObj s =>
    obtain ⟨o2, ho2⟩ := mergeProps_shape s o
    exact ⟨o2, by simp [mergeV, truthy, ho2]⟩
  | vStr s =>
    by_cases hs : (s != "") = false
    · exact ⟨o, by simp [mergeV, truthy, hs]⟩
    · obtain ⟨o2, ho2⟩ := strDefine_shape s.toList 0 o
      exact ⟨o2, by simp [mergeV, truthy, hs]; exact ho2⟩

/-- Merging a single-key object whose value is not itself a plain object
always defines that key wholesale, whatever the destination object held. -/
theorem mergeV_single_scalar_key (o : JSObj) (k : String) (v : Value) (hv : isObject v = false) :
    jsGet (mergeV (.vObj o) (.vObj (.cons k (.dataDesc v true true) .nil))) k = v := by
  rw [show mergeV (.vObj o) (.vObj (.cons k (.dataDesc v true true) .nil))
        = mergeKey (.vObj o) k (.dataDesc v true true) by
      simp [mergeV, truthy, mergeProps, descEnumerable]]
  cases hl : objLookup o k with
  | none =>
    simp [mergeKey, getOwnDescV, hl, defineProp, jsGet, objLookup_define_self, descRead]
  | some d0 =>
    cases d0 with
    | dataDesc ov ow oe =>
      simp [mergeKey, getOwnDescV, hl, hv, defineProp, jsGet, objLookup_define_self, descRead]
    | accessor g s e =>
      simp [mergeKey, getOwnDescV, hl, defineProp, jsGet, objLookup_define_self, descRead]

/-- C6: the public `cfg.merge` applies the object, then its environment
override, then — in CI mode — its CI override, in that order; hence when CI
is on and the object carries `$env_CI: {k: 1}`, the final tree has `k = 1`
whatever the object, the active environment's own override, or the prior
tree said about `k`. -/
theorem merge_ci_override_wins (e : Extern) (st : St) (c0 o : JSObj) (k : String)
    (hci : isCIExt e = true) (hcfg : st.config = .vObj c0)
    (hover : jsGet (.vObj o) "$env_CI" = .vObj (.cons k (.dataDesc (.vNum 1) true true) .nil)) :
    (cfg_merge e (.vObj o) st).map (fun s => jsGet s.config k) = .ok (.vNum 1) := by
  have hinit : readDefaultConfigFiles e st = .ok st := by
    simp [readDefaultConfigFiles, hcfg, truthy]
  obtain ⟨o1, ho1⟩ := mergeV_shape (.vObj o) c0
  obtain ⟨o2, ho2⟩ := mergeV_shape (jsGet (.vObj o) (envOverrideKey e)) o1
  simp only [cfg_merge, hinit, exBind, cfgMergePrim, instanceofObject, if_pos,
    mergeSteps, hcfg, ho1, ho2, hci, if_true, hover, Except.map]
  exact congrArg Except.ok (mergeV_single_scalar_key o2 k (.vNum 1) rfl)

/-- Witness for C6: CI on, object `{k: 5, $env_development: {k: 9},
$env_CI: {k: 1}}` merged into the empty tree ends with `k = 1`. -/
theorem merge_ci_override_wins_witness :
    (cfg_merge ⟨none, some "true", [], "/q", fun _ => .notFound, fun _ => none, fun _ => none⟩
        (.vObj (.cons "k" (.dataDesc (.vNum 5) true true)
          (.cons "$env_development" (.dataDesc (.vObj (.cons "k" (.dataDesc (.vNum 9) true true) .nil)) true true)
          (.cons "$env_CI" (.dataDesc (.vObj (.cons "k" (.dataDesc (.vNum 1) true true) .nil)) true true) .nil))))
        ⟨.vObj .nil, []⟩).map (fun s => jsGet s.config "k") = .ok (.vNum 1) :=
  merge_ci_override_wins _ _ .nil _ "k" rfl rfl rfl

/-! ### Lemmas about the assign loop -/

theorem jsSetProp_shape (o : JSObj) (k : String) (v : Value) :
    ∃ o2, jsSetProp (.vObj o) k v = .vObj o2 := by
  cases hl : objLookup o k with
  | none => exact ⟨objDefine o k (.dataDesc v true true), by simp [jsSetProp, hl]⟩
  | some d0 =>
    cases d0 with
    | dataDesc ov ow oe => exact ⟨objDefine o k (.dataDesc v ow oe), by simp [jsSetProp, hl]⟩
    | accessor g s e2 => exact ⟨o, by simp [jsSetProp, hl]⟩

theorem jsSetProp_lookup_ne (o : JSObj) (k k2 : String) (v : Value) (h : k2 ≠ k) :
    getOwnDescV (jsSetProp (.vObj o) k v) k2 = objLookup o k2 := by
  cases hl : objLookup o k with
  | none => simp [jsSetProp, hl, getOwnDescV, objLookup_define_ne o k k2 _ h]
  | some d0 =>
    cases d0 with
    | dataDesc ov ow oe => simp [jsSetProp, hl, getOwnDescV, objLookup_define_ne o k k2 _ h]
    | accessor g s e2 => simp [jsSetProp, hl, getOwnDescV]

theorem assignProps_lookup_notin (s : JSObj) (k : String) (o : JSObj) (hk : k ∉ objKeys s) :
    getOwnDescV (assignProps (.vObj o) s) k = objLookup o k := by
  cases s with
  | nil => rfl
  | cons k' d t =>
    have hne : k ≠ k' := fun h => hk (by simp [objKeys, h])
    have hkt : k ∉ objKeys t := fun h => hk (by simp [objKeys, h])
    by_cases he : descEnumerable d = true
    · obtain ⟨o2, ho2⟩ := jsSetProp_shape o k' (descRead d)
      rw [show assignProps (.vObj o) (.cons k' d t) = assignProps (jsSetProp (.vObj o) k' (descRead d)) t by
            simp [assignProps, he]]
      rw [ho2, assignProps_lookup_notin t k _ hkt]
      rw [show objLookup o2 k = getOwnDescV (.vObj o2) k from rfl, ← ho2]
      exact jsSetProp_lookup_ne o k' k _ hne
    · rw [show assignProps (.vObj o) (.cons k' d t) = assignProps (.vObj o) t by
            simp [assignProps, he]]
      exact assignProps_lookup_notin t k o hkt
termination_by structural s

theorem assignProps_at_key_fresh (s : JSObj) (k : String) (d : Desc) (t0 : JSObj)
    (hnd : (objKeys s).Nodup) (hl : objLookup s k = some d) (he : descEnumerable d = true)
    (hfresh : objLookup t0 k = none) :
    getOwnDescV (assignProps (.vObj t0) s) k = some (.dataDesc (descRead d) true true) := by
  cases s with
  | nil => simp [objLookup] at hl
  | cons k' d' t =>
    have hnd' : k' ∉ objKeys t ∧ (objKeys t).Nodup := by
      have := List.nodup_cons.mp (show (k' :: objKeys t).Nodup from hnd)
      exact ⟨this.1, this.2⟩
    by_cases hk : k' = k
    · subst hk
      have hd : d' = d := by simpa [objLookup] using hl
      subst hd
      rw [show assignProps (.vObj t0) (.cons k' d' t)
            = assignProps (jsSetProp (.vObj t0) k' (descRead d')) t by simp [assignProps, he]]
      rw [show jsSetProp (.vObj t0) k' (descRead d')
            = .vObj (objDefine t0 k' (.dataDesc (descRead d') true true)) by
          simp [jsSetProp, hfresh]]
      rw [assignProps_lookup_notin t k' _ hnd'.1, objLookup_define_self]
    · have hlt : objLookup t k = some d := by simpa [objLookup, hk] using hl
      by_cases he' : descEnumerable d' = true
      · obtain ⟨o2, ho2⟩ := jsSetProp_shape t0 k' (descRead d')
        have hfresh2 : objLookup o2 k = none := by
          rw [show objLookup o2 k = getOwnDescV (.vObj o2) k from rfl, ← ho2]
          rw [jsSetProp_lookup_ne t0 k' k _ (fun hh => hk hh.symm)]
          exact hfresh
        rw [show assignProps (.vObj t0) (.cons k' d' t)
              = assignProps (jsSetProp (.vObj t0) k' (descRead d')) t by simp [assignProps, he']]
        rw [ho2]
        exact assignProps_at_key_fresh t k d o2 hnd'.2 hlt he hfresh2
      · rw [show assignProps (.vObj t0) (.cons k' d' t) = assignProps (.vObj t0) t by
              simp [assignProps, he']]
        exact assignProps_at_key_fresh t k d t0 hnd'.2 hlt he hfresh
termination_by structural s

/-- C10: an object whose key `k` is a (getter-backed) computed property is
flattened by `cfg.assign` and by the single-object form of `cfg.set` — the
getter is evaluated and a plain writable enumerable data property holding its
produced value lands in the tree — while `cfg.merge` copies the accessor
descriptor wholesale, so the property remains computed.  Stated for a tree
with no prior own `k` and an object whose environment/CI override slots are
absent. -/
theorem getter_flattened_by_assign_preserved_by_merge
    (e : Extern) (st : St) (c0 o : JSObj) (k : String) (gv : Value) (sf : Bool)
    (hcfg : st.config = .vObj c0) (hfresh : objLookup c0 k = none)
    (hnd : (objKeys o).Nodup) (hk : objLookup o k = some (.accessor (some gv) sf true))
    (henv : jsGet (.vObj o) (envOverrideKey e) = .vUndefined)
    (hci : jsGet (.vObj o) "$env_CI" = .vUndefined) :
    (cfg_assign e (.vObj o) st).map (fun s => getOwnDescV s.config k)
        = .ok (some (.dataDesc gv true true))
    ∧ (cfg_set e (.vObj o) .vUndefined st).map (fun pr => getOwnDescV pr.2.config k)
        = .ok (some (.dataDesc gv true true))
    ∧ (cfg_merge e (.vObj o) st).map (fun s => getOwnDescV s.config k)
        = .ok (some (.accessor (some gv) sf true)) := by
  have hinit : readDefaultConfigFiles e st = .ok st := by
    simp [readDefaultConfigFiles, hcfg, truthy]
  have hOA : ∀ c : Value, objAssign c .vUndefined = c := fun c => rfl
  have hMV : ∀ c : Value, mergeV c .vUndefined = c := fun c => by simp [mergeV, truthy]
  have hassignSteps : getOwnDescV (assignSteps e (.vObj o) st.config) k
      = some (.dataDesc gv true true) := by
    have hc1 : getOwnDescV (objAssign st.config (.vObj o)) k
        = some (.dataDesc (descRead (.accessor (some gv) sf true)) true true) := by
      rw [hcfg]
      exact assignProps_at_key_fresh o k _ c0 hnd hk rfl hfresh
    simp only [assignSteps]
    rw [henv, hci]
    simp only [hOA, ite_self]
    rw [hc1]
    simp [descRead]
  have hmergeSteps : getOwnDescV (mergeSteps e (.vObj o) st.config) k
      = some (.accessor (some gv) sf true) := by
    have hc1 : getOwnDescV (mergeV st.config (.vObj o)) k
        = some (.accessor (some gv) sf true) := by
      rw [hcfg]
      rw [show mergeV (.vObj c0) (.vObj o) = mergeProps (.vObj c0) o by simp [mergeV, truthy]]
      rw [mergeProps_at_key o k _ c0 hnd hk rfl]
      simp [mergedDescAt, hfresh]
    simp only [mergeSteps]
    rw [henv, hci]
    simp only [hMV, ite_self]
    exact hc1
  refine ⟨?_, ?_, ?_⟩
  · simp only [cfg_assign, hinit, exBind, cfgAssignPrim, instanceofObject, if_pos, Except.map]
    exact congrArg Except.ok hassignSteps
  · simp only [cfg_set, hinit, isUndef, instanceofObject, Bool.and_self, if_pos, Except.map,
      cfgAssignPrim]
    exact congrArg Except.ok hassignSteps
  · simp only [cfg_merge, hinit, exBind, cfgMergePrim, instanceofObject, if_pos, Except.map]
    exact congrArg Except.ok hmergeSteps

/-- Witness for C10: `{g: <getter producing 7>}` assigned, set, and merged
into an empty tree. -/
theorem getter_flattened_by_assign_preserved_by_merge_witness :
    ((cfg_assign ⟨none, none, [], "/q", fun _ => .notFound, fun _ => none, fun _ => none⟩
        (.vObj (.cons "g" (.accessor (some (.vNum 7)) false true) .nil))
        ⟨.vObj .nil, []⟩).map (fun s => getOwnDescV s.config "g")
        = .ok (some (.dataDesc (.vNum 7) true true)))
    ∧ ((cfg_set ⟨none, none, [], "/q", fun _ => .notFound, fun _ => none, fun _ => none⟩
        (.vObj (.cons "g" (.accessor (some (.vNum 7)) false true) .nil)) .vUndefined
        ⟨.vObj .nil, []⟩).map (fun pr => getOwnDescV pr.2.config "g")
        = .ok (some (.dataDesc (.vNum 7) true true)))
    ∧ ((cfg_merge ⟨none, none, [], "/q", fun _ => .notFound, fun _ => none, fun _ => none⟩
        (.vObj (.cons "g" (.accessor (some (.vNum 7)) false true) .nil))
        ⟨.vObj .nil, []⟩).map (fun s => getOwnDescV s.config "g")
        = .ok (some (.accessor (some (.vNum 7)) false true))) :=
  getter_flattened_by_assign_preserved_by_merge _ _ .nil _ "g" (.vNum 7) false
    rfl rfl (by simp [objKeys]) rfl rfl rfl

/-! ### Round trip of the key-path accessor from a fresh tree -/

theorem splitCh_ne_nil (sep : Char) (cs : List Char) : splitCh sep cs ≠ [] := by
  induction cs with
  | nil => simp [splitCh]
  | cons c t ih =>
    by_cases h : c = sep
    · simp [splitCh, h]
    · simp only [splitCh, if_neg h]
      cases hs : splitCh sep t with
      | nil => simp
      | cons h' r => simp

theorem splitDots_ne_nil (s : String) : splitDots s ≠ [] := by
  simp only [splitDots]
  intro h
  exact splitCh_ne_nil '.' s.toList (List.map_eq_nil_iff.mp h)

theorem vlGet_vlSet_self (l : VList) (i : Nat) (v : Value) :
    vlGet (vlSet l i v) i = some v := by
  match l, i with
  | .nil, 0 => rfl
  | .nil, n + 1 =>
    show vlGet (.cons .vUndefined (vlSet .nil n v)) (n + 1) = some v
    exact vlGet_vlSet_self .nil n v
  | .cons h t, 0 => rfl
  | .cons h t, n + 1 =>
    show vlGet (.cons h (vlSet t n v)) (n + 1) = some v
    exact vlGet_vlSet_self t n v
termination_by i

/-- Setting then getting the same freshly created path returns the value:
the invariant of `_.set` followed by `_.get` on intermediates it creates
itself (fresh `{}` or fresh `[]` when the next segment is an index). -/
theorem lodashSet_get_fresh (t : List String) (k : String) (v : Value) (b : Value)
    (hb : b = .vObj .nil ∨ (b = .vArr .nil ∧ (parseIndex k).isSome = true)) :
    lodashGet (lodashSet b (k :: t) v) (k :: t) = v := by
  cases t with
  | nil =>
    rcases hb with hb | ⟨hb, hi⟩
    · subst hb
      simp [lodashSet, jsSetProp, objLookup, lodashGet, isNullish, jsGet,
        objDefine, objLookup_define_self, descRead]
    · subst hb
      obtain ⟨i, hi⟩ := Option.isSome_iff_exists.mp hi
      simp [lodashSet, jsSetProp, hi, lodashGet, isNullish, jsGet, vlGet_vlSet_self]
  | cons k2 t' =>
    have hchild : jsGet b k = .vUndefined := by
      rcases hb with hb | ⟨hb, hi⟩
      · subst hb; simp [jsGet, objLookup]
      · subst hb
        obtain ⟨i, hi⟩ := Option.isSome_iff_exists.mp hi
        simp [jsGet, hi, vlGet]
    have hrec : lodashGet (lodashSet
        (if (parseIndex k2).isSome then Value.vArr .nil else Value.vObj .nil)
        (k2 :: t') v) (k2 :: t') = v := by
      by_cases hpi : (parseIndex k2).isSome = true
      · rw [if_pos hpi]
        exact lodashSet_get_fresh t' k2 v (.vArr .nil) (Or.inr ⟨rfl, hpi⟩)
      · rw [if_neg hpi]
        exact lodashSet_get_fresh t' k2 v (.vObj .nil) (Or.inl rfl)
    rw [show lodashSet b (k :: k2 :: t') v
          = jsSetProp b k (lodashSet
              (if lodashIsObject (jsGet b k) then jsGet b k
               else if (parseIndex k2).isSome then Value.vArr .nil else Value.vObj .nil)
              (k2 :: t') v) from rfl]
    rw [hchild]
    rw [show lodashIsObject Value.vUndefined = false from rfl]
    simp only [Bool.false_eq_true, if_false]
    set inner := lodashSet
        (if (parseIndex k2).isSome then Value.vArr .nil else Value.vObj .nil)
        (k2 :: t') v with hinner
    rcases hb with hb | ⟨hb, hi⟩
    · subst hb
      rw [show jsSetProp (Value.vObj .nil) k inner
            = .vObj (objDefine .nil k (.dataDesc inner true true)) by simp [jsSetProp, objLookup]]
      rw [show lodashGet (Value.vObj (objDefine .nil k (.dataDesc inner true true))) (k :: k2 :: t')
            = lodashGet (jsGet (Value.vObj (objDefine .nil k (.dataDesc inner true true))) k) (k2 :: t')
          by simp [lodashGet, isNullish]]
      rw [show jsGet (Value.vObj (objDefine .nil k (.dataDesc inner true true))) k = inner by
            simp [jsGet, objLookup_define_self, descRead]]
      exact hrec
    · subst hb
      obtain ⟨i, hi⟩ := Option.isSome_iff_exists.mp hi
      rw [show jsSetProp (Value.vArr .nil) k inner = .vArr (vlSet .nil i inner) by
            simp [jsSetProp, hi]]
      rw [show lodashGet (Value.vArr (vlSet .nil i inner)) (k :: k2 :: t')
            = lodashGet (jsGet (Value.vArr (vlSet .nil i inner)) k) (k2 :: t')
          by simp [lodashGet, isNullish]]
      rw [show jsGet (Value.vArr (vlSet .nil i inner)) k = inner by
            simp [jsGet, hi, vlGet_vlSet_self]]
      exact hrec

/-- A tagged value is a non-empty string. -/
theorem jsonTagged_ne_empty (raw : String) (h : jsonTagged raw = true) : (raw != "") = true := by
  cases hraw : raw.toList with
  | cons c t => simp [bne_iff_ne]; intro he; rw [he] at hraw; simp at hraw
  | nil =>
    exfalso
    rw [jsonTagged, hraw] at h
    simp [List.isPrefixOf] at h

/-- C3 (amended): for an environment entry whose name carries the `CFG__`
prefix, applied to the freshly initialized empty tree, the value stored at
the derived key path is: the parsed JSON value when the raw value carries
the `@JSON:` tag and parsing succeeds; the ORIGINAL raw string, tag still
attached, when parsing fails (the caught exception leaves `envVal`
unassigned, so the tag is NOT removed); and the raw string when untagged. -/
theorem readEnvVariables_value_cases (e : Extern) (name raw : String)
    (fc : List (String × Value)) (hpair : e.envPairs = [(name, raw)])
    (hpfx : List.isPrefixOf "CFG__".toList name.toList = true) :
    (jsonTagged raw = true →
        (∀ j, e.jsonParse (jsonRemainder raw) = some j →
          lodashGet (readEnvVariablesPrim e ⟨.vObj .nil, fc⟩).config
            (splitDots (envDerivedKey name)) = j)
        ∧ (e.jsonParse (jsonRemainder raw) = none →
          lodashGet (readEnvVariablesPrim e ⟨.vObj .nil, fc⟩).config
            (splitDots (envDerivedKey name)) = .vStr raw))
    ∧ (jsonTagged raw = false →
        lodashGet (readEnvVariablesPrim e ⟨.vObj .nil, fc⟩).config
          (splitDots (envDerivedKey name)) = .vStr raw) := by
  have hstored : lodashGet (readEnvVariablesPrim e ⟨.vObj .nil, fc⟩).config
      (splitDots (envDerivedKey name)) = envValTransform e raw := by
    have hrun : readEnvVariablesPrim e ⟨.vObj .nil, fc⟩
        = ⟨lodashSet (.vObj .nil) (splitDots (envDerivedKey name)) (envValTransform e raw), fc⟩ := by
      have hp2 : (List.isPrefixOf ['C', 'F', 'G', '_', '_'] name.data) = true := hpfx
      simp [readEnvVariablesPrim, hpair, cfgSetPathPrim, List.filter, hp2]
    rw [hrun]
    cases hp : splitDots (envDerivedKey name) with
    | nil => exact absurd hp (splitDots_ne_nil _)
    | cons k t => exact lodashSet_get_fresh t k _ _ (Or.inl rfl)
  refine ⟨fun htag => ⟨fun j hj => ?_, fun hj => ?_⟩, fun htag => ?_⟩
  · rw [hstored, envValTransform, if_pos (by simp [jsonTagged_ne_empty raw htag, htag]), hj]
  · rw [hstored, envValTransform, if_pos (by simp [jsonTagged_ne_empty raw htag, htag]), hj]
  · rw [hstored, envValTransform]
    by_cases hraw : (raw != "") = true
    · rw [if_neg (by simp [htag])]
    · rw [if_neg (by simp [Bool.not_eq_true _ ▸ hraw])]

/-- Witness for C3's amended statement, exercising all three cases: a parse
failure stores `"@JSON:oops"` (tag kept), a parse success stores the parsed
value, and an untagged value stores the raw string. -/
theorem readEnvVariables_value_cases_witness :
    lodashGet (readEnvVariablesPrim
        ⟨none, none, [("CFG__X", "@JSON:oops")], "/q", fun _ => .notFound, fun _ => none,
          fun _ => none⟩ ⟨.vObj .nil, []⟩).config (splitDots (envDerivedKey "CFG__X"))
      = .vStr "@JSON:oops" :=
  ((readEnvVariables_value_cases _ "CFG__X" "@JSON:oops" [] rfl (by decide)).1
    (by decide)).2 rfl

/-- Counterexample to C3 as stated: with `CFG__X=@JSON:oops` and a failing
parse, the full default load stores the intact tagged string `"@JSON:oops"`
at key `x` — not the claimed tag-stripped `"oops"`. -/
theorem env_json_parse_failure_keeps_tag :
    (readDefaultConfigFiles
        ⟨none, none, [("CFG__X", "@JSON:oops")], "/q", fun _ => .notFound, fun _ => none,
          fun _ => none⟩ ⟨.vUndefined, []⟩).map
        (fun s => lodashGet s.config (splitDots "x")) = .ok (.vStr "@JSON:oops")
    ∧ Value.vStr "@JSON:oops" ≠ Value.vStr "oops" :=
  ⟨rfl, by simp⟩

/-- Counterexample to C7 as stated: a sequence (array) is `instanceof
Object`, so `cfg.merge([1])` does not no-op — it copies the index property
into the tree, changing `{}` into `{"0": 1}`. -/
theorem merge_array_mutates_tree :
    cfg_merge ⟨none, none, [], "/q", fun _ => .notFound, fun _ => none, fun _ => none⟩
        (.vArr (.cons (.vNum 1) .nil)) ⟨.vObj .nil, []⟩
      = .ok ⟨.vObj (.cons "0" (.dataDesc (.vNum 1) true true) .nil), []⟩
    ∧ Value.vObj (.cons "0" (.dataDesc (.vNum 1) true true) .nil) ≠ .vObj .nil :=
  ⟨rfl, by simp⟩

/-- C7 (amended): the public `cfg.merge` and `cfg.assign` leave the tree
unchanged and return without error exactly for arguments that fail the
`instanceof Object` guard — `null`, `undefined` and primitives; objects that
are not plain mappings (sequences, buffers) pass the guard and are
processed.  A single-argument `cfg.set` with a non-object argument falls
through to the key/value branch (the claim's own exception). -/
theorem nonobject_args_noop (e : Extern) (st : St) (v : Value)
    (hv : instanceofObject v = false) (ht : truthy st.config = true) :
    cfg_merge e v st = .ok st ∧ cfg_assign e v st = .ok st := by
  have hinit : readDefaultConfigFiles e st = .ok st := by simp [readDefaultConfigFiles, ht]
  constructor
  · simp [cfg_merge, hinit, exBind, cfgMergePrim, hv]
  · simp [cfg_assign, hinit, exBind, cfgAssignPrim, hv]

/-- Witness for C7's amended statement at `null` on a one-key tree. -/
theorem nonobject_args_noop_witness :
    cfg_merge ⟨none, none, [], "/q", fun _ => .notFound, fun _ => none, fun _ => none⟩
        .vNull ⟨.vObj (.cons "a" (.dataDesc (.vNum 1) true true) .nil), []⟩
      = .ok ⟨.vObj (.cons "a" (.dataDesc (.vNum 1) true true) .nil), []⟩
    ∧ cfg_assign ⟨none, none, [], "/q", fun _ => .notFound, fun _ => none, fun _ => none⟩
        .vNull ⟨.vObj (.cons "a" (.dataDesc (.vNum 1) true true) .nil), []⟩
      = .ok ⟨.vObj (.cons "a" (.dataDesc (.vNum 1) true true) .nil), []⟩ :=
  nonobject_args_noop _ _ .vNull rfl rfl

/-- Counterexample to C2 as stated: an array is not a plain mapping
(`isObject` is false on it), so the claim says an overwrite load of an array
deep-merges it; but `typeof [1] === 'object'`, so the code replaces the
whole tree with the array — which differs from what the environment-aware
merge would have produced. -/
theorem file_overwrite_array_replaces_tree :
    isObject (Value.vArr (.cons (.vNum 1) .nil)) = false
    ∧ cfg_file ⟨none, none, [], "/q",
        (fun p => if p = "/a.js" then .ok (.vArr (.cons (.vNum 1) .nil)) else .notFound),
        fun _ => none, fun _ => none⟩ "/a.js" false false true ⟨.vObj .nil, []⟩
      = .ok ⟨.vArr (.cons (.vNum 1) .nil), []⟩
    ∧ cfg_merge ⟨none, none, [], "/q",
        (fun p => if p = "/a.js" then .ok (.vArr (.cons (.vNum 1) .nil)) else .notFound),
        fun _ => none, fun _ => none⟩ (.vArr (.cons (.vNum 1) .nil)) ⟨.vObj .nil, []⟩
      ≠ .ok ⟨.vArr (.cons (.vNum 1) .nil), []⟩ := by
  refine ⟨rfl, rfl, ?_⟩
  rw [show cfg_merge ⟨none, none, [], "/q",
        (fun p => if p = "/a.js" then .ok (.vArr (.cons (.vNum 1) .nil)) else .notFound),
        fun _ => none, fun _ => none⟩ (.vArr (.cons (.vNum 1) .nil)) ⟨.vObj .nil, []⟩
      = .ok ⟨.vObj (.cons "0" (.dataDesc (.vNum 1) true true) .nil), []⟩ from rfl]
  simp

/-- C2 (amended): on a successful load, the tree is replaced outright exactly
when `options.overwrite` is true AND `typeof data === 'object'` — which
admits plain mappings, sequences, buffers and `null`, not plain mappings
alone; in every other case the result is whatever the environment-aware
`cfg.merge` (with its environment and CI override steps) produces. -/
theorem cfg_file_success_behavior (e : Extern) (f : String) (ignNF ignErr ovw : Bool)
    (st : St) (data : Value) (habs : isAbsolute f = true) (hreq : e.requireF f = .ok data) :
    ((ovw && typeofObject data) = true →
        cfg_file e f ignNF ignErr ovw st = .ok ⟨data, st.fileCache⟩)
    ∧ ((ovw && typeofObject data) = false → ∀ st1, cfg_merge e data st = .ok st1 →
        cfg_file e f ignNF ignErr ovw st = .ok st1) := by
  constructor
  · intro hc
    simp [cfg_file, habs, hreq, hc]
  · intro hc st1 hm
    simp [cfg_file, habs, hreq, hc, hm]

/-- Witness for C2's amended statement: an overwrite load of `{}` replaces
the tree. -/
theorem cfg_file_success_behavior_witness :
    cfg_file ⟨none, none, [], "/q",
        (fun p => if p = "/b.js" then .ok (.vObj .nil) else .notFound),
        fun _ => none, fun _ => none⟩ "/b.js" false false true
        ⟨.vObj (.cons "a" (.dataDesc (.vNum 1) true true) .nil), []⟩
      = .ok ⟨.vObj .nil, []⟩ :=
  (cfg_file_success_behavior _ "/b.js" false false true _ (.vObj .nil) rfl rfl).1 rfl

/-- Counterexample to C4 as stated: on a tree whose key `k` holds path
`/f`, a read whose `fs.readFileSync` fails returns the absent marker but
caches nothing — the state is unchanged and has no cache entry — so a second
`read(k)` against a now-readable file retries the read and returns the bytes
instead of the claimed cached absent marker. -/
theorem read_failure_not_cached :
    cfg_read ⟨none, none, [], "/q", fun _ => .notFound, fun _ => none, fun _ => none⟩
        "k" ⟨.vObj (.cons "k" (.dataDesc (.vStr "/f") true true) .nil), []⟩
      = .ok (.vUndefined, ⟨.vObj (.cons "k" (.dataDesc (.vStr "/f") true true) .nil), []⟩)
    ∧ cacheLookup ([] : List (String × Value)) "k" = none
    ∧ cfg_read ⟨none, none, [], "/q", fun _ => .notFound,
        (fun p => if p = "/f" then some [7] else none), fun _ => none⟩
        "k" ⟨.vObj (.cons "k" (.dataDesc (.vStr "/f") true true) .nil), []⟩
      = .ok (.vBuf [7], ⟨.vObj (.cons "k" (.dataDesc (.vStr "/f") true true) .nil),
          [("k", .vBuf [7])]⟩)
    ∧ Value.vBuf [7] ≠ .vUndefined :=
  ⟨rfl, rfl, rfl, by simp⟩

/-- C4 (amended): when `read(key)` finds a file path at the key but the read
fails, the failure is only logged — the assignment into the cache never
runs, the state is returned unchanged with no entry for the key, and a later
`read(key)` retries the read (returning fresh bytes if the file has become
readable).  Only the no-path case caches the absent marker. -/
theorem read_failure_logs_and_retries (e1 e2 : Extern) (key p : String) (c : JSObj)
    (st : St) (bs : List Nat)
    (hnc : cacheLookup st.fileCache key = none)
    (hcfg : st.config = .vObj c)
    (hpath : lodashGet st.config (splitDots key) = .vStr p)
    (hp : p ≠ "")
    (hfail : e1.readFileF p = none)
    (hsucc : e2.readFileF p = some bs) :
    cfg_read e1 key st = .ok (.vUndefined, st)
    ∧ cfg_read e2 key st = .ok (.vBuf bs, ⟨st.config, (key, .vBuf bs) :: st.fileCache⟩) := by
  have hinit : ∀ e : Extern, readDefaultConfigFiles e st = .ok st := fun e => by
    simp [readDefaultConfigFiles, hcfg, truthy]
  have hget : ∀ e : Extern, cfg_get e key .vUndefined st = .ok (.vStr p, st) := fun e => by
    simp [cfg_get, hinit e, hpath, isUndef]
  have hp' : (p != "") = true := by simp [bne_iff_ne, hp]
  constructor
  · simp [cfg_read, hnc, hget, truthy, hp', hfail]
  · simp [cfg_read, hnc, hget, truthy, hp', hsucc]

/-- Witness for C4's amended statement at the counterexample's inputs. -/
theorem read_failure_logs_and_retries_witness :
    cfg_read ⟨none, none, [], "/q", fun _ => .notFound, fun _ => none, fun _ => none⟩
        "k" ⟨.vObj (.cons "k" (.dataDesc (.vStr "/f") true true) .nil), []⟩
      = .ok (.vUndefined, ⟨.vObj (.cons "k" (.dataDesc (.vStr "/f") true true) .nil), []⟩)
    ∧ cfg_read ⟨none, none, [], "/q", fun _ => .notFound,
        (fun p => if p = "/f" then some [7] else none), fun _ => none⟩
        "k" ⟨.vObj (.cons "k" (.dataDesc (.vStr "/f") true true) .nil), []⟩
      = .ok (.vBuf [7], ⟨.vObj (.cons "k" (.dataDesc (.vStr "/f") true true) .nil),
          [("k", .vBuf [7])]⟩) :=
  read_failure_logs_and_retries _ _ "k" "/f" (.cons "k" (.dataDesc (.vStr "/f") true true) .nil)
    _ [7] rfl rfl rfl (by simp) rfl rfl

/-- C9: on a tree whose key holds a readable file path, `read(key)` returns
the file's bytes and caches them under the key; afterwards any state whose
cache still holds that entry — in particular after `cfg.set` rewrites the
tree value at the key, which never touches the cache — returns the identical
cached bytes from any later `read(key)`, whatever the external world then
looks like. -/
theorem read_caches_bytes_per_key (e1 : Extern) (key p : String) (c : JSObj) (st : St)
    (bs : List Nat)
    (hnc : cacheLookup st.fileCache key = none)
    (hcfg : st.config = .vObj c)
    (hpath : lodashGet st.config (splitDots key) = .vStr p)
    (hp : p ≠ "")
    (hread : e1.readFileF p = some bs) :
    cfg_read e1 key st = .ok (.vBuf bs, ⟨st.config, (key, .vBuf bs) :: st.fileCache⟩)
    ∧ (∀ (e2 : Extern) (v' : Value) (pr : Value × St),
        cfg_set e2 (.vStr key) v' ⟨st.config, (key, .vBuf bs) :: st.fileCache⟩ = .ok pr →
        pr.2.fileCache = (key, .vBuf bs) :: st.fileCache)
    ∧ (∀ (e3 : Extern) (st2 : St), st2.fileCache = (key, .vBuf bs) :: st.fileCache →
        cfg_read e3 key st2 = .ok (.vBuf bs, st2)) := by
  have hinit : readDefaultConfigFiles e1 st = .ok st := by
    simp [readDefaultConfigFiles, hcfg, truthy]
  have hget : cfg_get e1 key .vUndefined st = .ok (.vStr p, st) := by
    simp [cfg_get, hinit, hpath, isUndef]
  have hp' : (p != "") = true := by simp [bne_iff_ne, hp]
  refine ⟨?_, ?_, ?_⟩
  · simp [cfg_read, hnc, hget, truthy, hp', hread]
  · intro e2 v' pr hset
    have hinit2 : readDefaultConfigFiles e2 (⟨st.config, (key, .vBuf bs) :: st.fileCache⟩ : St)
        = .ok ⟨st.config, (key, .vBuf bs) :: st.fileCache⟩ := by
      simp [readDefaultConfigFiles, hcfg, truthy]
    rw [cfg_set, hinit2] at hset
    simp only [isUndef, instanceofObject] at hset
    simp only [Bool.and_false, Bool.false_and] at hset
    rw [show (if false = true then Except.ok ((Value.vNull : Value),
          cfgAssignPrim e2 (.vStr key) ⟨st.config, (key, .vBuf bs) :: st.fileCache⟩)
        else Except.ok (cfgSetPathPrim key v' ⟨st.config, (key, .vBuf bs) :: st.fileCache⟩))
        = Except.ok (cfgSetPathPrim key v' ⟨st.config, (key, .vBuf bs) :: st.fileCache⟩)
      from rfl] at hset
    cases hset
    rfl
  · intro e3 st2 hc2
    simp [cfg_read, hc2, cacheLookup]

/-- Witness for C9 at a concrete one-key tree and file. -/
theorem read_caches_bytes_per_key_witness :
    cfg_read ⟨none, none, [], "/q", fun _ => .notFound,
        (fun p => if p = "/f" then some [3, 4] else none), fun _ => none⟩
        "cfgPath" ⟨.vObj (.cons "cfgPath" (.dataDesc (.vStr "/f") true true) .nil), []⟩
      = .ok (.vBuf [3, 4], ⟨.vObj (.cons "cfgPath" (.dataDesc (.vStr "/f") true true) .nil),
          [("cfgPath", .vBuf [3, 4])]⟩) :=
  (read_caches_bytes_per_key
    ⟨none, none, [], "/q", fun _ => .notFound,
      (fun p => if p = "/f" then some [3, 4] else none), fun _ => none⟩
    "cfgPath" "/f" (.cons "cfgPath" (.dataDesc (.vStr "/f") true true) .nil)
    ⟨.vObj (.cons "cfgPath" (.dataDesc (.vStr "/f") true true) .nil), []⟩ [3, 4]
    rfl rfl rfl (by simp) rfl).1

/-! ### The default sequence keeps the tree a plain object -/

theorem mergeSteps_obj (e : Extern) (obj : Value) (c : JSObj) :
    isObject (mergeSteps e obj (.vObj c)) = true := by
  obtain ⟨o1, ho1⟩ := mergeV_shape obj c
  obtain ⟨o2, ho2⟩ := mergeV_shape (jsGet obj (envOverrideKey e)) o1
  simp only [mergeSteps, ho1, ho2]
  cases hci : isCIExt e
  · simp [isObject]
  · simp only [if_true]
    obtain ⟨o3, ho3⟩ := mergeV_shape (jsGet obj "$env_CI") o2
    simp [ho3, isObject]

theorem cfgMergePrim_obj (e : Extern) (data : Value) (st : St)
    (h : isObject st.config = true) : isObject (cfgMergePrim e data st).config = true := by
  obtain ⟨c, hc⟩ : ∃ c, st.config = .vObj c := by
    cases hv : st.config <;> simp [hv, isObject] at h ⊢
  rw [cfgMergePrim]
  by_cases hio : instanceofObject data = true
  · simp only [hio, if_true]
    rw [hc]
    exact mergeSteps_obj e data c
  · simp only [Bool.not_eq_true _ ▸ hio, if_false] at *
    rw [if_neg (by simp [Bool.not_eq_true _ ▸ hio])]
    exact h

theorem filePrim_obj (e : Extern) (f : String) (ignNF ignErr : Bool) (st st' : St)
    (hobj : isObject st.config = true)
    (h : filePrim e f ignNF ignErr false st = .ok st') : isObject st'.config = true := by
  rw [filePrim] at h
  split at h
  · simp at h
  · split at h
    · rename_i data heq
      split at h
      · rename_i hcond
        simp at hcond
      · cases h
        exact cfgMergePrim_obj e data st hobj
    · split at h
      · cases h; exact hobj
      · split at h
        · cases h; exact hobj
        · simp at h
    · split at h
      · cases h; exact hobj
      · simp at h

theorem lodashSet_top_obj (o : JSObj) (p : List String) (v : Value) (hp : p ≠ []) :
    isObject (lodashSet (.vObj o) p v) = true := by
  cases p with
  | nil => exact absurd rfl hp
  | cons k t =>
    cases t with
    | nil =>
      obtain ⟨o2, ho2⟩ := jsSetProp_shape o k v
      simp [lodashSet, ho2, isObject]
    | cons k2 t' =>
      obtain ⟨o2, ho2⟩ := jsSetProp_shape o k _
      simp only [lodashSet]
      rw [ho2]
      simp [isObject]

theorem readEnvVariablesPrim_obj (e : Extern) (st : St)
    (h : isObject st.config = true) : isObject (readEnvVariablesPrim e st).config = true := by
  rw [readEnvVariablesPrim]
  generalize (e.envPairs.filter fun pr => List.isPrefixOf "CFG__".toList pr.1.toList) = l
  induction l generalizing st with
  | nil => exact h
  | cons pr t ih =>
    rw [List.foldl_cons]
    apply ih
    obtain ⟨c, hc⟩ : ∃ c, st.config = .vObj c := by
      cases hv : st.config <;> simp [hv, isObject] at h ⊢
    simp only [cfgSetPathPrim]
    rw [hc]
    exact lodashSet_top_obj c _ _ (splitDots_ne_nil _)

theorem exBind_obj (x : Except JsErr St) (f : St → Except JsErr St) (st' : St)
    (hx : ∀ s, x = .ok s → isObject s.config = true)
    (hf : ∀ s, isObject s.config = true → ∀ s', f s = .ok s' → isObject s'.config = true)
    (h : exBind x f = .ok st') : isObject st'.config = true := by
  cases x with
  | error er => simp [exBind] at h
  | ok s => exact hf s (hx s rfl) st' (by simpa [exBind] using h)

theorem privateConfigStep_obj (e : Extern) (s s' : St) (hs : isObject s.config = true)
    (h : privateConfigStep e s = .ok s') : isObject s'.config = true := by
  rw [privateConfigStep] at h
  split at h
  · split at h
    · cases h; exact hs
    · exact filePrim_obj e _ true false s s' hs h
  · split at h
    · simp at h
    · cases h; exact hs

theorem defaultSequence_obj (e : Extern) (st st' : St) (hobj : isObject st.config = true)
    (h : defaultSequence e st = .ok st') : isObject st'.config = true := by
  rw [defaultSequence] at h
  have hstep : ∀ (g : String) (s : St), isObject s.config = true →
      ∀ s', filePrim e g true false false s = .ok s' → isObject s'.config = true :=
    fun g s hs s' hh => filePrim_obj e g true false s s' hs hh
  have hifstep : ∀ (g : String) (s : St), isObject s.config = true →
      ∀ s', (if isCIExt e then filePrim e g true false false s else .ok s) = .ok s' →
        isObject s'.config = true := by
    intro g s hs s' hh
    cases hci : isCIExt e
    · rw [hci] at hh; simp at hh; cases hh; exact hs
    · rw [hci] at hh; simp at hh
      exact filePrim_obj e g true false s s' hs hh
  refine exBind_obj _ _ st' (fun s hh => hstep _ st hobj s hh) ?_ h
  intro s1 hs1
  refine fun st' h => exBind_obj _ _ st' (fun s hh => hstep _ s1 hs1 s hh) ?_ h
  intro s2 hs2
  refine fun st' h => exBind_obj _ _ st' (fun s hh => hifstep _ s2 hs2 s hh) ?_ h
  intro s3 hs3
  refine fun st' h => exBind_obj _ _ st' (fun s hh => hstep _ s3 hs3 s hh) ?_ h
  intro s4 hs4
  refine fun st' h => exBind_obj _ _ st' (fun s hh => hstep _ s4 hs4 s hh) ?_ h
  intro s5 hs5
  refine fun st' h => exBind_obj _ _ st' (fun s hh => hifstep _ s5 hs5 s hh) ?_ h
  intro s6 hs6
  refine fun st' h => exBind_obj _ _ st' (fun s hh => privateConfigStep_obj e s6 s hs6 hh) ?_ h
  intro s7 hs7 st'' hh
  cases hh
  exact readEnvVariablesPrim_obj e s7 hs7

theorem init_truthy (e : Extern) (st st' : St)
    (h : readDefaultConfigFiles e st = .ok st') : truthy st'.config = true := by
  rw [readDefaultConfigFiles] at h
  by_cases ht : truthy st.config = true
  · rw [if_pos ht] at h; cases h; exact ht
  · rw [if_neg ht] at h
    have hobj := defaultSequence_obj e _ st' (by simp [isObject]) h
    cases hv : st'.config <;> simp [hv, isObject] at hobj
    simp [hv, truthy]

/-- C5 (amended): an operation that routes through lazy initialization runs
the default sequence only when the tree is falsy, and a completed
initialization always leaves the tree truthy — so an immediately following
initialization (by any later operation, under any external world) is a
no-op and the sequence runs at most once while the tree stays truthy.  The
overwrite branch of `cfg.file` bypasses initialization entirely (see the
counterexample), and only an overwrite that stores a falsy value can make
the sequence run again. -/
theorem init_runs_at_most_once (e e2 : Extern) (st st' : St)
    (h : readDefaultConfigFiles e st = .ok st') :
    readDefaultConfigFiles e2 st' = .ok st' ∧ truthy st'.config = true := by
  have ht := init_truthy e st st' h
  exact ⟨by simp [readDefaultConfigFiles, ht], ht⟩

/-- Witness for C5's amended statement: a full initialization from the
uninitialized state, then a second initialization that is a no-op. -/
theorem init_runs_at_most_once_witness :
    readDefaultConfigFiles
        ⟨none, none, [], "/q", fun _ => .notFound, fun _ => none, fun _ => none⟩
        ⟨.vObj .nil, []⟩ = .ok ⟨.vObj .nil, []⟩
    ∧ truthy (Value.vObj .nil) = true :=
  init_runs_at_most_once
    ⟨none, none, [], "/q", fun _ => .notFound, fun _ => none, fun _ => none⟩
    ⟨none, none, [], "/q", fun _ => .notFound, fun _ => none, fun _ => none⟩
    ⟨.vUndefined, []⟩ ⟨.vObj .nil, []⟩ rfl

/-- Counterexample to C5 as stated: `cfg.file` with `overwrite` is a public
write, yet on the uninitialized tree it never triggers the default sequence —
the loaded object replaces the tree and the `CFG__Z` environment variable
(which the sequence would have applied, as the third conjunct shows) is
missing from the result. -/
theorem file_overwrite_skips_initialization :
    truthy Value.vUndefined = false
    ∧ cfg_file ⟨none, none, [("CFG__Z", "1")], "/q",
        (fun p => if p = "/a.js" then .ok (.vObj (.cons "a" (.dataDesc (.vNum 1) true true) .nil))
         else .notFound), fun _ => none, fun _ => none⟩
        "/a.js" false false true ⟨.vUndefined, []⟩
      = .ok ⟨.vObj (.cons "a" (.dataDesc (.vNum 1) true true) .nil), []⟩
    ∧ (readDefaultConfigFiles ⟨none, none, [("CFG__Z", "1")], "/q",
        (fun p => if p = "/a.js" then .ok (.vObj (.cons "a" (.dataDesc (.vNum 1) true true) .nil))
         else .notFound), fun _ => none, fun _ => none⟩ ⟨.vUndefined, []⟩).map
        (fun s => lodashGet s.config (splitDots "z")) = .ok (.vStr "1")
    ∧ lodashGet (.vObj (.cons "a" (.dataDesc (.vNum 1) true true) .nil)) (splitDots "z")
      = .vUndefined
    ∧ Value.vUndefined ≠ .vStr "1" :=
  ⟨rfl, rfl, rfl, rfl, by simp⟩

end Cfg
